import Mathlib

/-!
Shallow embedding of the expenseLog repository (Rust) for specification
checking.

Conventions of the embedding:
* Rust `f64` monetary amounts are modelled as exact rationals `ℚ`; the claims
  under study concern which rows are selected, summed and divided, not
  floating-point rounding.
* `chrono::NaiveDate` is modelled as a record of year/month/day compared
  lexicographically (`chrono`'s `Ord`).  The SQLite layer stores dates as
  ISO-8601 `%Y-%m-%d` text and compares them as strings; for the four-digit
  years produced by the application this string order coincides with date
  order, so the embedding compares date values directly and treats the
  to-string/parse round trip as the identity.
* SQLite state is modelled as the list of table rows in insertion (rowid)
  order.  A fresh `INTEGER PRIMARY KEY` rowid (no `AUTOINCREMENT` in the
  schema) is one larger than the largest rowid currently in use, `1` for an
  empty table — SQLite's documented behaviour, which permits reuse of the
  ids of deleted rows.
* Engine-level I/O failures are out of scope; the embedded operations model
  the success path of each SQL statement plus the row-decoding failures the
  repository itself produces.
-/

set_option autoImplicit false

deriving instance DecidableEq for Except

namespace ExpenseLog

/-- ASCII-lowercase a single character, as Rust's `to_ascii_lowercase`:
characters outside `A`..`Z` are unchanged. -/
def asciiLowerChar (c : Char) : Char :=
  if 'A' ≤ c ∧ c ≤ 'Z' then Char.ofNat (c.toNat + 32) else c

/-- ASCII-lowercase a string character by character.  Rust's
`eq_ignore_ascii_case` works byte by byte, but UTF-8 continuation and lead
bytes never fall in the ASCII uppercase range, so the character-wise map
agrees with the byte-wise one. -/
def asciiLower (s : String) : String := ⟨s.data.map asciiLowerChar⟩

/-- Rust's `str::trim`: strip leading and trailing whitespace. -/
def strTrim (s : String) : String :=
  ⟨((s.data.dropWhile Char.isWhitespace).reverse.dropWhile Char.isWhitespace).reverse⟩

/-- Embedding of Rust `str::eq_ignore_ascii_case`. -/
def eqIgnoreAsciiCase (a b : String) : Bool := asciiLower a == asciiLower b

/-- Embedding of `CategoryType` from `src/models/category.rs`. -/
inductive CategoryType where
  | system
  | custom
deriving DecidableEq, Repr

/-- Embedding of `Category` from `src/models/category.rs`: a name, a type and
an optional description. -/
structure Category where
  name : String
  categoryType : CategoryType
  description : Option String
deriving DecidableEq, Repr

/-- Embedding of `Category::new` from `src/models/category.rs` (lines 48-54).
It performs no validation of the name. -/
def Category.new (name : String) (categoryType : CategoryType)
    (description : Option String) : Category :=
  { name := name, categoryType := categoryType, description := description }

/-- Embedding of `impl PartialEq for Category` (`src/models/category.rs`
lines 31-35): exact name equality and category-type equality; the
description field is ignored. -/
def catEq (a b : Category) : Bool :=
  a.name == b.name && a.categoryType == b.categoryType

/-- Embedding of `impl Hash for Category` (`src/models/category.rs`
lines 39-45) as the data fed to the hasher: the name and the category type;
the description is deliberately skipped. -/
def hashInput (c : Category) : String × CategoryType :=
  (c.name, c.categoryType)

/-- Calendar date, embedding `chrono::NaiveDate` (year, month, day). -/
structure Date where
  year : Int
  month : Nat
  day : Nat
deriving DecidableEq, Repr

/-- Lexicographic `≤` on dates, as `chrono::NaiveDate`'s `Ord`. -/
def Date.leb (a b : Date) : Bool :=
  if a.year ≠ b.year then decide (a.year < b.year)
  else if a.month ≠ b.month then decide (a.month < b.month)
  else decide (a.day ≤ b.day)

/-- Lexicographic `<` on dates, as `chrono::NaiveDate`'s `Ord`. -/
def Date.ltb (a b : Date) : Bool :=
  if a.year ≠ b.year then decide (a.year < b.year)
  else if a.month ≠ b.month then decide (a.month < b.month)
  else decide (a.day < b.day)

/-- Embedding of `ExpenseError` from `src/models/expense.rs`. -/
inductive ExpenseError where
  | invalidAmount (msg : String)
  | invalidCategory (msg : String)
  | invalidDate (msg : String)
deriving DecidableEq, Repr

/-- Embedding of `Expense` from `src/models/expense.rs`. -/
structure Expense where
  id : Option Int
  amount : ℚ
  category : Category
  date : Date
  description : String
deriving DecidableEq, Repr

/-- Embedding of `Expense::new`: unconditional construction, id absent. -/
def Expense.new (amount : ℚ) (category : Category) (date : Date)
    (description : String) : Expense :=
  { id := none, amount := amount, category := category, date := date,
    description := description }

/-- Embedding of `Expense::new_validated` from `src/models/expense.rs`
(lines 44-70).  The Rust code reads the current local date from the clock;
the embedding takes it as the explicit parameter `today`.  The amount check
precedes the date check, as in the source. -/
def Expense.new_validated (today : Date) (amount : ℚ) (category : Category)
    (date : Date) (description : String) : Except ExpenseError Expense :=
  if amount < 0 then
    .error (.invalidAmount "amount cannot be negative")
  else if Date.ltb today date then
    .error (.invalidDate "date cannot be in the future")
  else
    .ok { id := none, amount := amount, category := category, date := date,
          description := description }

/-- Tests whether a constructor result is an `InvalidAmount` error. -/
def isInvalidAmount : Except ExpenseError Expense → Bool
  | .error (.invalidAmount _) => true
  | _ => false

/-- Tests whether a constructor result is an `InvalidDate` error. -/
def isInvalidDate : Except ExpenseError Expense → Bool
  | .error (.invalidDate _) => true
  | _ => false

/-- Embedding of `CategoryError` from `src/models/category.rs`: its single
variant `InvalidCategory` carries a message.  (The embedded messages drop the
single-quote characters of the Rust format strings.) -/
inductive CategoryError where
  | invalidCategory (msg : String)
deriving DecidableEq, Repr

/-- Embedding of `get_system_categories` from `src/models/category.rs`
(lines 105-143): the seven built-in system categories. -/
def get_system_categories : List Category :=
  [ Category.new "Food" .system (some "Groceries, restaurants, takeout, etc."),
    Category.new "Housing" .system (some "Rent, mortgage, property taxes, repairs"),
    Category.new "Transportation" .system (some "Public transit, gas, car maintenance, rideshares"),
    Category.new "Utilities" .system (some "Electricity, water, heating, internet, phone"),
    Category.new "Healthcare" .system (some "Doctor visits, medications, insurance"),
    Category.new "Entertainment" .system (some "Movies, games, subscriptions, hobbies"),
    Category.new "Household" .system (some "Furniture, kitchen ware, office supplies, etc.") ]

/-- `HashSet<Category>::insert` under `Category`'s `Eq` implementation
(`catEq`): a category equal to an existing element leaves the set unchanged,
otherwise the element is added.  The set is modelled as the list of its
elements. -/
def hsInsert (l : List Category) (c : Category) : List Category :=
  if l.any (fun x => catEq x c) then l else l ++ [c]

/-- Collect a list into a `HashSet<Category>`, as `.into_iter().collect()`. -/
def hsFromList (l : List Category) : List Category :=
  l.foldl hsInsert []

/-- Embedding of `CategoryRegistry` from `src/models/category.rs`: the two
hash sets of system and custom categories, each modelled as the list of its
elements. -/
structure CategoryRegistry where
  system_categories : List Category
  custom_categories : List Category
deriving DecidableEq, Repr

/-- Embedding of `CategoryRegistry::new`: the system categories collected
into a set, no custom categories. -/
def CategoryRegistry.new : CategoryRegistry :=
  { system_categories := hsFromList get_system_categories,
    custom_categories := [] }

/-- Embedding of `CategoryRegistry::load_custom_categories`
(`src/models/category.rs` lines 164-169): clear the custom set, then insert
a `Custom` category for each given name, with no validation and no check
against the system set. -/
def CategoryRegistry.load_custom_categories (reg : CategoryRegistry)
    (category_names : List String) : CategoryRegistry :=
  { reg with
    custom_categories :=
      category_names.foldl (fun acc n => hsInsert acc (Category.new n .custom none)) [] }

/-- Embedding of `CategoryRegistry::all_categories`: system entries chained
with custom entries. -/
def CategoryRegistry.all_categories (reg : CategoryRegistry) : List Category :=
  reg.system_categories ++ reg.custom_categories

/-- Embedding of `CategoryRegistry::category_exists`
(`src/models/category.rs` lines 179-182): a case-insensitive name match in
either set. -/
def CategoryRegistry.category_exists (reg : CategoryRegistry) (name : String) : Bool :=
  reg.system_categories.any (fun c => eqIgnoreAsciiCase c.name name) ||
    reg.custom_categories.any (fun c => eqIgnoreAsciiCase c.name name)

/-- Embedding of `CategoryRegistry::get_category`: first case-insensitive
match among the system entries, then among the custom entries. -/
def CategoryRegistry.get_category (reg : CategoryRegistry) (name : String) :
    Option Category :=
  (reg.system_categories.find? (fun c => eqIgnoreAsciiCase c.name name)).orElse
    (fun _ => reg.custom_categories.find? (fun c => eqIgnoreAsciiCase c.name name))

/-- Embedding of `CategoryRegistry::add_custom_category`
(`src/models/category.rs` lines 193-205): fail if a case-insensitive match
exists, otherwise insert a new `Custom` category and return the stored
entry found by `get_category` (whose `unwrap` is modelled by the
never-taken `none` branch). -/
def CategoryRegistry.add_custom_category (reg : CategoryRegistry) (name : String)
    (description : Option String) : CategoryRegistry × Except CategoryError Category :=
  if reg.category_exists name then
    (reg, .error (.invalidCategory ("Category " ++ name ++ " already exists")))
  else
    let reg2 : CategoryRegistry :=
      { reg with
        custom_categories := hsInsert reg.custom_categories (Category.new name .custom description) }
    match reg2.get_category name with
    | some c => (reg2, .ok c)
    | none => (reg2, .error (.invalidCategory "unwrap of a missing category"))

/-- The case-insensitive uniqueness predicate on a list of categories: no
entry's name is ASCII-case-insensitively equal to a later entry's name. -/
def pairwiseDistinctNames : List Category → Bool
  | [] => true
  | c :: rest =>
      rest.all (fun x => !(eqIgnoreAsciiCase c.name x.name)) && pairwiseDistinctNames rest

/-- The registry invariant claimed by the spec: no two entries of the
registry (system and custom together) have case-insensitively equal names. -/
def registryInv (reg : CategoryRegistry) : Bool :=
  pairwiseDistinctNames reg.all_categories

/-- Embedding of `RepositoryError` from `src/repository/error.rs`, collapsed
to the single storage-failure kind the spec distinguishes. -/
inductive RepositoryError where
  | storageError
deriving DecidableEq, Repr

/-- A row of the `expenses` table (`src/repository/sqlite/schema.rs`):
id, amount, denormalized category name and description, date, description. -/
structure Row where
  id : Int
  amount : ℚ
  category : String
  category_description : Option String
  date : Date
  description : String
deriving DecidableEq, Repr

/-- The SQLite store state: the rows of the `expenses` table in rowid
(insertion) order. -/
structure Store where
  rows : List Row
deriving DecidableEq, Repr

/-- The largest rowid currently in use, `0` for an empty table. -/
def Store.max_rowid (s : Store) : Int :=
  s.rows.foldl (fun m r => max m r.id) 0

/-- The rowid SQLite assigns to the next `INSERT` into an
`INTEGER PRIMARY KEY` table without `AUTOINCREMENT`: one larger than the
largest rowid currently in use (so the id of a deleted largest row can be
reused). -/
def Store.next_rowid (s : Store) : Int :=
  s.max_rowid + 1

/-- Modelled from the spec: the repository rebuilds a `Category` from a
row's stored name and description through a validating category constructor
that is referenced by `src/repository/sqlite/expense_repository.rs` but
whose definition is not among the sources (the `category.rs` in the sources
is an earlier revision with a different constructor).  Per the spec, a
category name must be non-empty after trimming, and a stored row that
cannot be parsed back into domain types is a storage error.  The spec does
not determine the category type of a reconstructed category; the embedding
uses `custom`, and no claim under study inspects it. -/
def category_from_row (name : String) (description : Option String) :
    Except RepositoryError Category :=
  if strTrim name = "" then .error .storageError
  else .ok (Category.new name .custom description)

/-- Embedding of `save` from `src/repository/sqlite/expense_repository.rs`
(lines 37-79).  Id absent: `INSERT` appends a row with the next rowid and
the expense's id is set to `last_insert_rowid`.  Id present: `UPDATE ...
WHERE id = ?` rewrites every row whose id matches (a no-op when none does);
the affected count is ignored and the expense is left as it was. -/
def Store.save (s : Store) (e : Expense) : Store × Expense :=
  match e.id with
  | none =>
      let newId := s.next_rowid
      let row : Row :=
        { id := newId, amount := e.amount, category := e.category.name,
          category_description := e.category.description, date := e.date,
          description := e.description }
      ({ rows := s.rows ++ [row] }, { e with id := some newId })
  | some i =>
      ({ rows := s.rows.map (fun r =>
            if r.id == i then
              { id := r.id, amount := e.amount, category := e.category.name,
                category_description := e.category.description, date := e.date,
                description := e.description }
            else r) },
       e)

/-- Embedding of `get_by_id` (lines 81-117): the first row with the given
id, decoded back into an `Expense`; `Ok(None)` when no row matches; a
storage error when the stored category cannot be rebuilt. -/
def Store.get_by_id (s : Store) (i : Int) :
    Except RepositoryError (Option Expense) :=
  match s.rows.find? (fun r => r.id == i) with
  | none => .ok none
  | some r =>
      match category_from_row r.category r.category_description with
      | .error e2 => .error e2
      | .ok c =>
          .ok (some { id := some r.id, amount := r.amount, category := c,
                      date := r.date, description := r.description })

/-- Embedding of `delete` (lines 229-232): remove every row with the given
id and report whether any row was affected. -/
def Store.delete (s : Store) (i : Int) : Store × Bool :=
  let affected := s.rows.countP (fun r => r.id == i)
  ({ rows := s.rows.filter (fun r => !(r.id == i)) }, decide (0 < affected))

/-- The SQL range-and-category filter of `get_category_total`:
`category = ?1 AND date >= ?2 AND date <= ?3`. -/
def rowMatches (category_name : String) (start e : Date) (r : Row) : Bool :=
  r.category == category_name && Date.leb start r.date && Date.leb r.date e

/-- The SQL date-range filter `date >= ?1 AND date <= ?2`. -/
def inRange (start e : Date) (r : Row) : Bool :=
  Date.leb start r.date && Date.leb r.date e

/-- Embedding of `get_category_total` (lines 234-244):
`SELECT COALESCE(SUM(amount), 0.0) FROM expenses WHERE category = ?1 AND
date >= ?2 AND date <= ?3`, modelled as a running sum over the table. -/
def Store.get_category_total (s : Store) (category_name : String)
    (start e : Date) : ℚ :=
  s.rows.foldl
    (fun acc r => if rowMatches category_name start e r then acc + r.amount else acc) 0

/-- The month count of `get_monthly_category_averages` (line 248):
`(end.year*12 + end.month) - (start.year*12 + start.month) + 1`. -/
def months_between (start e : Date) : Int :=
  (e.year * 12 + (e.month : Int)) - (start.year * 12 + (start.month : Int)) + 1

/-- Worker for `firstDedup`: drop any key already in `seen`, otherwise keep
it and remember it. -/
def firstDedupAux (seen : List String) : List String → List String
  | [] => []
  | c :: cs =>
      if seen.contains c then firstDedupAux seen cs
      else c :: firstDedupAux (c :: seen) cs

/-- First-occurrence deduplication: the distinct grouping keys of a SQL
`GROUP BY`, in order of first appearance in the scan. -/
def firstDedup (l : List String) : List String :=
  firstDedupAux [] l

/-- Embedding of `get_monthly_category_averages` (lines 246-279): compute
the month count; if nonpositive return the empty list; otherwise
`SELECT category, SUM(amount) ... WHERE date in range GROUP BY category`
and divide each group's sum by the month count. -/
def Store.get_monthly_category_averages (s : Store) (start e : Date) :
    List (String × ℚ) :=
  let months := months_between start e
  if months ≤ 0 then []
  else
    let matching := s.rows.filter (inRange start e)
    let groups := firstDedup (matching.map (fun r => r.category))
    groups.map (fun c =>
      (c, ((matching.filter (fun r => r.category == c)).map (fun r => r.amount)).sum
            / (months : ℚ)))

/-- A concrete category used to build concrete test inputs. -/
def foodCat : Category := Category.new "Food" .system none

/-- A concrete stored row: 100 spent on Food on 2025-03-15. -/
def exRow1 : Row := ⟨1, 100, "Food", none, ⟨2025, 3, 15⟩, "March food"⟩

/-- A concrete stored row: 200 spent on Food on 2025-04-15. -/
def exRow2 : Row := ⟨2, 200, "Food", none, ⟨2025, 4, 15⟩, "April food"⟩

/-- A concrete store holding `exRow1` and `exRow2`. -/
def exStore : Store := ⟨[exRow1, exRow2]⟩

/-- A concrete expense whose id is already set to `5`, an id no row of
`exStore` carries. -/
def exExp5 : Expense :=
  { id := some 5, amount := 7, category := foodCat, date := ⟨2025, 4, 1⟩,
    description := "ghost" }

end ExpenseLog

namespace ExpenseLog

theorem eqIgnore_eq_true_iff {a b : String} :
    eqIgnoreAsciiCase a b = true ↔ asciiLower a = asciiLower b := by
  simp [eqIgnoreAsciiCase]

theorem eqIgnore_eq_false_iff {a b : String} :
    eqIgnoreAsciiCase a b = false ↔ asciiLower a ≠ asciiLower b := by
  simp [eqIgnoreAsciiCase]

theorem eqIgnore_refl (a : String) : eqIgnoreAsciiCase a a = true := by
  simp [eqIgnoreAsciiCase]

theorem catEq_name {a b : Category} (h : catEq a b = true) : a.name = b.name := by
  simp only [catEq, Bool.and_eq_true, beq_iff_eq] at h
  exact h.1

theorem pairwiseDistinctNames_iff (l : List Category) :
    pairwiseDistinctNames l = true ↔
      l.Pairwise (fun a b => asciiLower a.name ≠ asciiLower b.name) := by
  induction l with
  | nil => simp [pairwiseDistinctNames]
  | cons c rest ih =>
      simp [pairwiseDistinctNames, List.all_eq_true, List.pairwise_cons, ih,
        eqIgnore_eq_false_iff, and_comm]

theorem foldl_max_init_le (l : List Row) (a : Int) :
    a ≤ l.foldl (fun m r => max m r.id) a := by
  induction l generalizing a with
  | nil => exact le_refl a
  | cons r rest ih =>
      exact le_trans (le_max_left a r.id) (ih (max a r.id))

theorem mem_le_foldl_max (l : List Row) (a : Int) (r : Row) (h : r ∈ l) :
    r.id ≤ l.foldl (fun m r => max m r.id) a := by
  induction l generalizing a with
  | nil => cases h
  | cons x rest ih =>
      rcases List.mem_cons.mp h with rfl | hmem
      · exact le_trans (le_max_right a r.id) (foldl_max_init_le rest (max a r.id))
      · exact ih (max a x.id) hmem

theorem max_rowid_nonneg (s : Store) : 0 ≤ s.max_rowid :=
  foldl_max_init_le s.rows 0

theorem next_rowid_pos (s : Store) : 0 < s.next_rowid :=
  lt_of_lt_of_le Int.zero_lt_one (by
    have := max_rowid_nonneg s
    unfold Store.next_rowid
    omega)

theorem mem_lt_next_rowid (s : Store) (r : Row) (h : r ∈ s.rows) :
    r.id < s.next_rowid := by
  have := mem_le_foldl_max s.rows 0 r h
  unfold Store.next_rowid Store.max_rowid
  omega

theorem foldl_cond_sum (p : Row → Bool) (l : List Row) (init : ℚ) :
    l.foldl (fun acc r => if p r then acc + r.amount else acc) init
      = init + ((l.filter p).map (fun r => r.amount)).sum := by
  induction l generalizing init with
  | nil => simp
  | cons r rest ih =>
      by_cases hp : p r
      · simp [List.filter_cons, hp, ih, add_assoc]
      · simp [List.filter_cons, hp, ih]

theorem map_eq_self_of {α : Type} (l : List α) (f : α → α)
    (h : ∀ x ∈ l, f x = x) : l.map f = l := by
  induction l with
  | nil => rfl
  | cons x rest ih =>
      simp only [List.map_cons, h x (List.mem_cons_self x rest)]
      rw [ih (fun y hy => h y (List.mem_cons_of_mem x hy))]

theorem mem_firstDedupAux (l : List String) :
    ∀ (seen : List String) (a : String),
      a ∈ firstDedupAux seen l ↔ a ∈ l ∧ a ∉ seen := by
  induction l with
  | nil => intro seen a; simp [firstDedupAux]
  | cons c cs ih =>
      intro seen a
      by_cases hc : seen.contains c
      · have hcm : c ∈ seen := by simpa using hc
        simp only [firstDedupAux, hc, if_pos, ih seen a, List.mem_cons]
        constructor
        · rintro ⟨ha, hns⟩; exact ⟨Or.inr ha, hns⟩
        · rintro ⟨ha | ha, hns⟩
          · exact absurd (ha ▸ hcm) hns
          · exact ⟨ha, hns⟩
      · simp only [firstDedupAux, hc, if_neg, Bool.false_eq_true, not_false_iff,
          List.mem_cons, ih (c :: seen) a]
        have hcs : ¬ c ∈ seen := by simpa using hc
        constructor
        · rintro (rfl | ⟨ha, hns⟩)
          · exact ⟨Or.inl rfl, hcs⟩
          · constructor
            · exact Or.inr ha
            · intro hmem; exact hns (Or.inr hmem)
        · rintro ⟨rfl | ha, hns⟩
          · exact Or.inl rfl
          · by_cases hac : a = c
            · exact Or.inl hac
            · refine Or.inr ⟨ha, ?_⟩
              rintro (h1 | h1)
              · exact hac h1
              · exact hns h1

theorem nodup_firstDedupAux (l : List String) :
    ∀ seen : List String, (firstDedupAux seen l).Nodup := by
  induction l with
  | nil => intro seen; simp [firstDedupAux]
  | cons c cs ih =>
      intro seen
      by_cases hc : seen.contains c
      · have hcm : c ∈ seen := by simpa using hc
        simpa [firstDedupAux, hc, hcm] using ih seen
      · simp only [firstDedupAux, hc, Bool.false_eq_true, if_neg, not_false_iff,
          List.nodup_cons]
        refine ⟨fun hmem => ?_, ih (c :: seen)⟩
        have := (mem_firstDedupAux cs (c :: seen) c).mp hmem
        exact this.2 (List.mem_cons_self c seen)

theorem mem_firstDedup (l : List String) (a : String) :
    a ∈ firstDedup l ↔ a ∈ l := by
  simp [firstDedup, mem_firstDedupAux]

theorem nodup_firstDedup (l : List String) : (firstDedup l).Nodup :=
  nodup_firstDedupAux l []

theorem map_fst_pairing {α β : Type} (l : List α) (f : α → β) :
    (l.map (fun c => (c, f c))).map Prod.fst = l := by
  induction l with
  | nil => rfl
  | cons x rest ih => simp [ih]

/-- C4, counterexample.  The claim says categories are equal iff their names
match case-insensitively.  On the code, "Food"/"food" (same type) are NOT
equal although their names match case-insensitively, and "Food"(System) is
not equal to "Food"(Custom) although the names match even exactly. -/
theorem C4_counterexample :
    eqIgnoreAsciiCase "Food" "food" = true ∧
    catEq (Category.new "Food" .system none) (Category.new "food" .system none) = false ∧
    catEq (Category.new "Food" .system none) (Category.new "Food" .custom none) = false := by
  decide

/-- C4, amended.  Two categories are equal iff their names are equal exactly
(case-sensitively) and their category types are equal; the description
participates in neither equality nor the hashed data. -/
theorem C4_equality_spec :
    ∀ (n1 n2 : String) (t1 t2 : CategoryType) (d1 d2 : Option String),
      (catEq (Category.new n1 t1 d1) (Category.new n2 t2 d2) = true ↔ n1 = n2 ∧ t1 = t2) ∧
      hashInput (Category.new n1 t1 d1) = hashInput (Category.new n1 t1 d2) := by
  intro n1 n2 t1 t2 d1 d2
  constructor
  · simp [catEq, Category.new]
  · rfl

/-- C7, counterexample.  The claim states `new_validated` returns an
`InvalidDate` error whenever the date is strictly after today.  With a
negative amount AND a future date the code returns `InvalidAmount` (the
amount is checked first), not `InvalidDate`. -/
theorem C7_counterexample :
    Date.ltb ⟨2025, 4, 11⟩ ⟨2025, 4, 12⟩ = true ∧
    Expense.new_validated ⟨2025, 4, 11⟩ (-1) foodCat ⟨2025, 4, 12⟩ "x"
      = .error (.invalidAmount "amount cannot be negative") ∧
    isInvalidDate (Expense.new_validated ⟨2025, 4, 11⟩ (-1) foodCat ⟨2025, 4, 12⟩ "x")
      = false := by
  refine ⟨by decide, by decide, by decide⟩

/-- C7, amended.  `new_validated` returns `InvalidAmount` iff the amount is
negative; it returns `InvalidDate` iff the amount is nonnegative AND the
date is strictly after today; otherwise it returns an expense with id
absent carrying exactly the given amount, category, date and description. -/
theorem C7_new_validated_spec :
    ∀ (today : Date) (a : ℚ) (c : Category) (d : Date) (s : String),
      (isInvalidAmount (Expense.new_validated today a c d s) = true ↔ a < 0) ∧
      (isInvalidDate (Expense.new_validated today a c d s) = true ↔
        0 ≤ a ∧ Date.ltb today d = true) ∧
      (0 ≤ a → Date.ltb today d = false →
        Expense.new_validated today a c d s
          = .ok { id := none, amount := a, category := c, date := d, description := s }) := by
  intro today a c d s
  by_cases ha : a < 0
  · simp [Expense.new_validated, ha, isInvalidAmount, isInvalidDate, not_le.mpr ha]
  · by_cases hd : Date.ltb today d = true
    · simp [Expense.new_validated, ha, hd, isInvalidAmount, isInvalidDate, not_lt.mp ha]
    · simp [Expense.new_validated, ha, hd, isInvalidAmount, isInvalidDate, not_lt.mp ha]

/-- C7 witness: at amount `0` (the boundary the claim highlights) and a
non-future date, the validating constructor succeeds with id absent. -/
theorem C7_witness :
    (0 : ℚ) ≤ 0 ∧ Date.ltb ⟨2025, 4, 11⟩ ⟨2025, 4, 11⟩ = false ∧
    Expense.new_validated ⟨2025, 4, 11⟩ 0 foodCat ⟨2025, 4, 11⟩ "zero"
      = .ok { id := none, amount := 0, category := foodCat, date := ⟨2025, 4, 11⟩,
              description := "zero" } :=
  ⟨le_refl 0, by decide,
    (C7_new_validated_spec ⟨2025, 4, 11⟩ 0 foodCat ⟨2025, 4, 11⟩ "zero").2.2
      (le_refl 0) (by decide)⟩

/-- C9: the claim says no construction path produces a `Category` whose name
is empty or all-whitespace; evaluating the code, the plain constructor and
the configuration bulk-load both do, without any error. -/
theorem C9_empty_name_constructed :
    (Category.new "" .custom none).name = "" ∧
    strTrim (Category.new "   " .custom none).name = "" ∧
    ((CategoryRegistry.new.load_custom_categories [""]).all_categories.any
        (fun c => strTrim c.name == "")) = true := by
  refine ⟨rfl, by decide, by decide⟩

theorem add_custom_category_eq_of_not_exists (reg : CategoryRegistry) (n : String)
    (d : Option String) (hex : reg.category_exists n = false) :
    reg.add_custom_category n d
      = ({ reg with
            custom_categories := reg.custom_categories ++ [Category.new n .custom d] },
         .ok (Category.new n .custom d)) := by
  obtain ⟨hall_sys, hall_cus⟩ :
      (∀ c ∈ reg.system_categories, eqIgnoreAsciiCase c.name n = false) ∧
        (∀ c ∈ reg.custom_categories, eqIgnoreAsciiCase c.name n = false) := by
    simpa [CategoryRegistry.category_exists] using hex
  have hins : hsInsert reg.custom_categories (Category.new n .custom d)
      = reg.custom_categories ++ [Category.new n .custom d] := by
    unfold hsInsert
    rw [if_neg]
    simp only [List.any_eq_true, not_exists]
    intro x
    rintro ⟨hx, hcat⟩
    have hn : x.name = n := by simpa [Category.new] using catEq_name hcat
    have := hall_cus x hx
    rw [hn] at this
    exact absurd (eqIgnore_refl n) (by simp [this])
  have hfind_sys : reg.system_categories.find? (fun c => eqIgnoreAsciiCase c.name n) = none :=
    List.find?_eq_none.mpr (by intro x hx; simp [hall_sys x hx])
  have hfind_cus : reg.custom_categories.find? (fun c => eqIgnoreAsciiCase c.name n) = none :=
    List.find?_eq_none.mpr (by intro x hx; simp [hall_cus x hx])
  have hfind : (reg.custom_categories ++ [Category.new n .custom d]).find?
      (fun c => eqIgnoreAsciiCase c.name n) = some (Category.new n .custom d) := by
    rw [List.find?_append, hfind_cus]
    simp [List.find?, Category.new, eqIgnore_refl]
  unfold CategoryRegistry.add_custom_category
  rw [if_neg (by simp [hex])]
  simp only [hins]
  have hget : CategoryRegistry.get_category
      { reg with custom_categories := reg.custom_categories ++ [Category.new n .custom d] } n
      = some (Category.new n .custom d) := by
    unfold CategoryRegistry.get_category
    simp only [hfind_sys, hfind]
    rfl
  rw [hget]

/-- C5, counterexample.  The claim says every registry operation preserves
case-insensitive name uniqueness.  Construction does establish it, but the
bulk load from configuration does not: loading the single name "food" next
to the built-in system category "Food" leaves two entries whose names are
equal case-insensitively. -/
theorem C5_counterexample :
    registryInv CategoryRegistry.new = true ∧
    registryInv (CategoryRegistry.new.load_custom_categories ["food"]) = false := by
  refine ⟨by decide, by decide⟩

/-- C5, amended.  Construction establishes case-insensitive name uniqueness
and `add_custom_category` preserves it, but `load_custom_categories`
inserts the given names unchecked and can break it. -/
theorem C5_inv_new_and_add :
    registryInv CategoryRegistry.new = true ∧
    ∀ (reg : CategoryRegistry) (n : String) (d : Option String),
      registryInv reg = true →
      registryInv (reg.add_custom_category n d).1 = true := by
  constructor
  · decide
  · intro reg n d hinv
    by_cases hex : reg.category_exists n
    · unfold CategoryRegistry.add_custom_category
      rw [if_pos (by simpa using hex)]
      exact hinv
    · have hexf : reg.category_exists n = false := by simpa using hex
      rw [add_custom_category_eq_of_not_exists reg n d hexf]
      obtain ⟨hsys, hcus⟩ :
          (∀ c ∈ reg.system_categories, eqIgnoreAsciiCase c.name n = false) ∧
            (∀ c ∈ reg.custom_categories, eqIgnoreAsciiCase c.name n = false) := by
        simpa [CategoryRegistry.category_exists] using hexf
      have hall : ∀ c ∈ reg.all_categories, eqIgnoreAsciiCase c.name n = false := by
        intro c hc
        rcases List.mem_append.mp hc with h | h
        · exact hsys c h
        · exact hcus c h
      rw [registryInv, pairwiseDistinctNames_iff] at hinv ⊢
      show List.Pairwise _
        (reg.system_categories ++ (reg.custom_categories ++ [Category.new n .custom d]))
      rw [← List.append_assoc, List.pairwise_append]
      refine ⟨hinv, List.pairwise_singleton _ _, ?_⟩
      intro a ha b hb
      have hb1 : b = Category.new n .custom d := by simpa using hb
      subst hb1
      have := hall a ha
      simpa [Category.new, eqIgnore_eq_false_iff] using this

/-- C5 witness: from the freshly constructed registry, adding the category
"Software" keeps the case-insensitive uniqueness invariant. -/
theorem C5_witness :
    registryInv CategoryRegistry.new = true ∧
    registryInv (CategoryRegistry.new.add_custom_category "Software" none).1 = true :=
  ⟨C5_inv_new_and_add.1,
    C5_inv_new_and_add.2 CategoryRegistry.new "Software" none (by decide)⟩

/-- C6: adding a name with no case-insensitive match succeeds, and
immediately adding the same name again — identically or differing only in
ASCII case — fails with the already-exists error and leaves the registry
unchanged. -/
theorem C6_add_then_duplicate :
    ∀ (reg : CategoryRegistry) (n n2 : String) (d d2 : Option String),
      reg.category_exists n = false →
      asciiLower n2 = asciiLower n →
      (reg.add_custom_category n d).2 = .ok (Category.new n .custom d) ∧
      (reg.add_custom_category n d).1.add_custom_category n2 d2
        = ((reg.add_custom_category n d).1,
           .error (.invalidCategory ("Category " ++ n2 ++ " already exists"))) := by
  intro reg n n2 d d2 hex hcase
  rw [add_custom_category_eq_of_not_exists reg n d hex]
  refine ⟨rfl, ?_⟩
  have hex2 : CategoryRegistry.category_exists
      { reg with custom_categories := reg.custom_categories ++ [Category.new n .custom d] } n2
      = true := by
    unfold CategoryRegistry.category_exists
    apply Bool.or_eq_true_iff.mpr
    right
    apply List.any_eq_true.mpr
    refine ⟨Category.new n .custom d, List.mem_append_right _ (by simp), ?_⟩
    simp [Category.new, eqIgnore_eq_true_iff, hcase.symm]
  unfold CategoryRegistry.add_custom_category
  rw [if_pos (by simp [hex2])]

/-- C8: deleting an existing id reports true and a subsequent point lookup
finds nothing; deleting a missing id reports false and leaves the store
completely unchanged. -/
theorem C8_delete_spec :
    ∀ (s : Store) (i : Int),
      ((∃ r ∈ s.rows, r.id = i) →
        (s.delete i).2 = true ∧ (s.delete i).1.get_by_id i = .ok none) ∧
      ((∀ r ∈ s.rows, r.id ≠ i) →
        (s.delete i).2 = false ∧ (s.delete i).1 = s) := by
  intro s i
  constructor
  · rintro ⟨r, hr, hid⟩
    constructor
    · have hpos : 0 < s.rows.countP (fun r => r.id == i) :=
        List.countP_pos_iff.mpr ⟨r, hr, by simp [hid]⟩
      simpa [Store.delete] using hpos
    · have hf : (s.rows.filter (fun r => !(r.id == i))).find? (fun r => r.id == i) = none := by
        apply List.find?_eq_none.mpr
        intro x hx
        have hx2 := (List.mem_filter.mp hx).2
        simpa using hx2
      simp [Store.delete, Store.get_by_id, hf]
  · intro hnone
    constructor
    · have hz : s.rows.countP (fun r => r.id == i) = 0 :=
        List.countP_eq_zero.mpr (by intro a ha; simp [hnone a ha])
      simp [Store.delete, hz]
    · have hkeep : s.rows.filter (fun r => !(r.id == i)) = s.rows :=
        List.filter_eq_self.mpr (by intro a ha; simp [hnone a ha])
      simp [Store.delete, hkeep]

/-- C8 witness: on the concrete store, deleting id 1 reports true and the
row is gone; deleting the absent id 99 reports false and changes nothing. -/
theorem C8_witness :
    (exStore.delete 1).2 = true ∧ (exStore.delete 1).1.get_by_id 1 = .ok none ∧
    (exStore.delete 99).2 = false ∧ (exStore.delete 99).1 = exStore := by
  have h1 := (C8_delete_spec exStore 1).1 ⟨exRow1, by simp [exStore], by simp [exRow1]⟩
  have h2 := (C8_delete_spec exStore 99).2 (by decide)
  exact ⟨h1.1, h1.2, h2.1, h2.2⟩

/-- C10: saving an expense whose id is set but matches no stored row
succeeds as a silent no-op: no row is inserted or changed, and the expense
keeps its id. -/
theorem C10_update_missing_id :
    ∀ (s : Store) (e : Expense) (i : Int),
      e.id = some i →
      (∀ r ∈ s.rows, r.id ≠ i) →
      s.save e = (s, e) := by
  intro s e i hid hno
  obtain ⟨eid, ea, ec, ed, eds⟩ := e
  simp only [Expense.id] at hid
  subst hid
  show ({ rows := s.rows.map _ }, _) = (s, _)
  have hmap : s.rows.map (fun r =>
      if r.id == i then
        { id := r.id, amount := ea, category := ec.name,
          category_description := ec.description, date := ed,
          description := eds }
      else r) = s.rows := by
    apply map_eq_self_of
    intro x hx
    rw [if_neg (by simp [hno x hx])]
  rw [hmap]

/-- C10 witness: saving the id-5 expense against the store whose rows carry
ids 1 and 2 returns the store and the expense unchanged. -/
theorem C10_witness : exStore.save exExp5 = (exStore, exExp5) :=
  C10_update_missing_id exStore exExp5 5 rfl (by decide)

/-- C2: `get_category_total` equals the sum of the amounts over exactly the
rows whose category name equals the given one and whose date lies in the
inclusive range, and equals 0 when no row matches. -/
theorem C2_category_total_spec :
    ∀ (s : Store) (c : String) (start e : Date),
      Date.leb start e = true →
      s.get_category_total c start e
        = ((s.rows.filter (rowMatches c start e)).map (fun r => r.amount)).sum ∧
      ((∀ r ∈ s.rows, rowMatches c start e r = false) →
        s.get_category_total c start e = 0) := by
  intro s c start e _
  have hfold := foldl_cond_sum (rowMatches c start e) s.rows 0
  constructor
  · simpa [Store.get_category_total] using hfold
  · intro hnone
    have hfil : s.rows.filter (rowMatches c start e) = [] :=
      List.filter_eq_nil_iff.mpr (by intro a ha; simp [hnone a ha])
    simp [Store.get_category_total, hfold, hfil]

/-- C2 witness: on the concrete store the total for "Food" over March to
April 2025 is the sum over the matching rows. -/
theorem C2_witness :
    Date.leb ⟨2025, 3, 1⟩ ⟨2025, 4, 30⟩ = true ∧
    exStore.get_category_total "Food" ⟨2025, 3, 1⟩ ⟨2025, 4, 30⟩
      = ((exStore.rows.filter (rowMatches "Food" ⟨2025, 3, 1⟩ ⟨2025, 4, 30⟩)).map
          (fun r => r.amount)).sum :=
  ⟨by decide,
    (C2_category_total_spec exStore "Food" ⟨2025, 3, 1⟩ ⟨2025, 4, 30⟩ (by decide)).1⟩

/-- C3, counterexample.  The claim says a fresh save assigns an id never
previously assigned to any expense.  Running the code: the first save into
an empty store assigns id 1; after that row is deleted, the next save
assigns id 1 again — an id previously assigned to the first expense. -/
theorem C3_counterexample :
    ((Store.mk []).save (Expense.new 10 foodCat ⟨2025, 4, 11⟩ "first")).2.id = some 1 ∧
    (((Store.mk []).save (Expense.new 10 foodCat ⟨2025, 4, 11⟩ "first")).1.delete 1).2
      = true ∧
    ((((Store.mk []).save (Expense.new 10 foodCat ⟨2025, 4, 11⟩ "first")).1.delete 1).1.save
        (Expense.new 20 foodCat ⟨2025, 4, 11⟩ "second")).2.id = some 1 := by
  refine ⟨rfl, by decide, rfl⟩

/-- C3, amended.  Saving a transient expense (id absent, category name
non-empty after trimming) inserts a row and sets the expense's id in place
to one more than the largest rowid in use — strictly positive and distinct
from (indeed larger than) the id of every row currently stored, though
possibly equal to the id of a previously deleted row — and a subsequent
`get_by_id` with that id returns an expense carrying the saved amount,
category name, category description, date and description. -/
theorem C3_save_roundtrip :
    ∀ (s : Store) (e : Expense),
      e.id = none →
      strTrim e.category.name ≠ "" →
      (s.save e).2.id = some s.next_rowid ∧
      0 < s.next_rowid ∧
      (∀ r ∈ s.rows, r.id < s.next_rowid) ∧
      (s.save e).1.get_by_id s.next_rowid
        = .ok (some { id := some s.next_rowid, amount := e.amount,
                      category := Category.new e.category.name .custom e.category.description,
                      date := e.date, description := e.description }) := by
  intro s e hid hname
  have hsave : s.save e
      = ({ rows := s.rows ++
            [{ id := s.next_rowid, amount := e.amount, category := e.category.name,
               category_description := e.category.description, date := e.date,
               description := e.description }] },
         { e with id := some s.next_rowid }) := by
    unfold Store.save
    rw [hid]
  have h1 : s.rows.find? (fun r => r.id == s.next_rowid) = none := by
    apply List.find?_eq_none.mpr
    intro x hx
    simp [Int.ne_of_lt (mem_lt_next_rowid s x hx)]
  refine ⟨by rw [hsave], next_rowid_pos s, fun r hr => mem_lt_next_rowid s r hr, ?_⟩
  rw [hsave]
  simp [Store.get_by_id, List.find?_append, h1, List.find?,
    category_from_row, hname, Category.new]

/-- C3 witness: saving a transient 10-unit Food expense into the empty
store assigns id 1 and `get_by_id 1` returns its amount, category name,
category description, date and description. -/
theorem C3_witness :
    ((Store.mk []).save (Expense.new 10 foodCat ⟨2025, 4, 11⟩ "first")).2.id = some 1 ∧
    ((Store.mk []).save (Expense.new 10 foodCat ⟨2025, 4, 11⟩ "first")).1.get_by_id 1
      = .ok (some { id := some 1, amount := 10,
                    category := Category.new "Food" .custom none,
                    date := ⟨2025, 4, 11⟩, description := "first" }) := by
  have h := C3_save_roundtrip (Store.mk [])
    (Expense.new 10 foodCat ⟨2025, 4, 11⟩ "first") rfl (by decide)
  exact ⟨h.1, h.2.2.2⟩

/-- C1: the monthly averages are computed with
`months = (end.year*12 + end.month) - (start.year*12 + start.month) + 1`;
if `months ≤ 0` the result is empty, and otherwise the result pairs each
category owning at least one row dated within the inclusive range with that
category's in-range amount sum divided by the single range-wide month
count, each such category exactly once. -/
theorem C1_monthly_averages_spec :
    ∀ (s : Store) (start e : Date),
      (months_between start e ≤ 0 →
        s.get_monthly_category_averages start e = []) ∧
      (0 < months_between start e →
        ((s.get_monthly_category_averages start e).map Prod.fst).Nodup ∧
        ∀ (c : String) (q : ℚ),
          ((c, q) ∈ s.get_monthly_category_averages start e ↔
            (∃ r ∈ s.rows, inRange start e r = true ∧ r.category = c) ∧
            q = ((s.rows.filter (fun r => r.category == c && inRange start e r)).map
                   (fun r => r.amount)).sum / (months_between start e : ℚ))) := by
  intro s start e
  constructor
  · intro h
    unfold Store.get_monthly_category_averages
    rw [if_pos h]
  · intro h
    have hne : ¬ months_between start e ≤ 0 := not_le.mpr h
    unfold Store.get_monthly_category_averages
    rw [if_neg hne]
    constructor
    · rw [map_fst_pairing]
      exact nodup_firstDedup _
    · intro c q
      have hsum : (s.rows.filter (inRange start e)).filter (fun r => r.category == c)
          = s.rows.filter (fun r => r.category == c && inRange start e r) :=
        List.filter_filter _ _
      rw [List.mem_map]
      constructor
      · rintro ⟨c0, hc0, heq⟩
        injection heq with h1 h2
        subst h1
        subst h2
        refine ⟨?_, by rw [hsum]⟩
        have := (mem_firstDedup _ c0).mp hc0
        obtain ⟨r, hr, hrc⟩ := List.mem_map.mp this
        obtain ⟨hrs, hri⟩ := List.mem_filter.mp hr
        exact ⟨r, hrs, hri, hrc⟩
      · rintro ⟨⟨r, hrs, hri, hrc⟩, hq⟩
        refine ⟨c, ?_, ?_⟩
        · apply (mem_firstDedup _ c).mpr
          exact List.mem_map.mpr ⟨r, List.mem_filter.mpr ⟨hrs, hri⟩, hrc⟩
        · rw [hsum, ← hq]

/-- C1 witness: with 100 spent on Food in March and 200 in April, the
averages over the two-month range 2025-03-01..2025-04-30 contain
("Food", 150). -/
theorem C1_witness :
    ("Food", (150 : ℚ)) ∈ exStore.get_monthly_category_averages ⟨2025, 3, 1⟩ ⟨2025, 4, 30⟩ := by
  have h := ((C1_monthly_averages_spec exStore ⟨2025, 3, 1⟩ ⟨2025, 4, 30⟩).2
    (by decide)).2 "Food" 150
  apply h.mpr
  refine ⟨⟨exRow1, by simp [exStore], by decide, rfl⟩, ?_⟩
  have hf : exStore.rows.filter
      (fun r => r.category == "Food" && inRange ⟨2025, 3, 1⟩ ⟨2025, 4, 30⟩ r)
      = [exRow1, exRow2] := by decide
  have hm : months_between ⟨2025, 3, 1⟩ ⟨2025, 4, 30⟩ = 2 := by decide
  rw [hf, hm]
  norm_num [exRow1, exRow2]

/-- C6 witness: on the fresh registry, adding "Software" succeeds and a
second add spelled "SOFTWARE" fails with the already-exists error, leaving
the registry unchanged. -/
theorem C6_witness :
    CategoryRegistry.new.category_exists "Software" = false ∧
    (CategoryRegistry.new.add_custom_category "Software" none).2
      = .ok (Category.new "Software" .custom none) ∧
    (CategoryRegistry.new.add_custom_category "Software" none).1.add_custom_category
        "SOFTWARE" (some "dup")
      = ((CategoryRegistry.new.add_custom_category "Software" none).1,
         .error (.invalidCategory "Category SOFTWARE already exists")) := by
  have h := C6_add_then_duplicate CategoryRegistry.new "Software" "SOFTWARE" none
    (some "dup") (by decide) (by decide)
  exact ⟨by decide, h.1, h.2⟩

end ExpenseLog
